import Mathlib

/-!
Verification of the scored-retrieval core of the ais-mcpserver repository
(rule store: src/servers/rules/index.ts; memory store: the memory server
source).  The TypeScript is shallowly embedded: records become structures,
the in-place mutations of the `RulesMCPServer` class become explicit
state-passing functions over `RuleStore`, and JavaScript string primitives
(`toLowerCase`, `includes`, `substring`, `padStart`, global regex match
counting on metacharacter-free patterns) are modelled over `String` /
`List Char`.
-/

namespace Ais

/-! ### JavaScript string primitives -/

/-- Model of JavaScript `haystack.includes(needle)` at the character-list
level: `hasInfix pat l` is true iff `pat` occurs contiguously in `l`. -/
def hasInfix (pat : List Char) : List Char → Bool
  | [] => pat.isEmpty
  | c :: rest => pat.isPrefixOf (c :: rest) || hasInfix pat rest

/-- Model of JavaScript `s.includes(pat)` (substring containment). -/
def jsIncludes (s pat : String) : Bool :=
  hasInfix pat.data s.data

/-- Model of JavaScript `s.toLowerCase()`: character-wise lowercasing (the
same function as `String.toLower`, stated over the character list so that
concrete instances evaluate). -/
def jsToLower (s : String) : String :=
  String.mk (s.data.map Char.toLower)

/-- Model of JavaScript `s.substring(0, n)`: the first `n` characters, all
of them when the string is shorter. -/
def jsTake (s : String) (n : Nat) : String :=
  String.mk (s.data.take n)

/-- Model of counting the matches of `String.prototype.match(new RegExp(pat, "g"))`
for a pattern `pat` that denotes itself literally (no regex metacharacters):
the number of non-overlapping occurrences of `pat` in `s`, scanning left to
right.  Mirroring ECMAScript global matching, the empty pattern matches
`s.length + 1` times (the regex engine advances `lastIndex` past each empty
match). -/
def countMatchesAux (pat : List Char) : Nat → List Char → Nat
  | 0, _ => 0
  | _ + 1, [] => 0
  | fuel + 1, c :: rest =>
    if pat.isPrefixOf (c :: rest) then
      countMatchesAux pat fuel ((c :: rest).drop pat.length) + 1
    else
      countMatchesAux pat fuel rest

/-- Count of non-overlapping occurrences of a non-empty `pat` in `s`,
scanning left to right; the fuel (initially `s.length`) only enforces
structural recursion — every step burns one unit of fuel and at least one
character, so the fuel is always at least the remaining length and the
recursion ends at the empty list. -/
def countMatches (pat : List Char) (s : List Char) : Nat :=
  if pat.isEmpty then s.length + 1 else countMatchesAux pat s.length s

/-- Fuel irrelevance: any fuel at least the remaining length gives the same
count, so `countMatches` is the pure left-to-right occurrence count and the
fuel is invisible. -/
theorem countMatchesAux_fuel (pat : List Char) (hpat : pat ≠ []) :
    ∀ (f1 : Nat), ∀ (f2 : Nat) (s : List Char), s.length ≤ f1 → s.length ≤ f2 →
      countMatchesAux pat f1 s = countMatchesAux pat f2 s := by
  have hplen : 1 ≤ pat.length := by
    cases pat with
    | nil => exact absurd rfl hpat
    | cons a l => simp
  intro f1
  induction f1 with
  | zero =>
    intro f2 s h1 _
    have : s = [] := List.eq_nil_of_length_eq_zero (by omega)
    subst this
    cases f2 <;> rfl
  | succ a ih =>
    intro f2 s h1 h2
    cases s with
    | nil => cases f2 <;> rfl
    | cons c rest =>
      cases f2 with
      | zero => simp at h2
      | succ b =>
        rw [countMatchesAux, countMatchesAux]
        by_cases hp : pat.isPrefixOf (c :: rest) = true
        · rw [if_pos hp, if_pos hp]
          have hd : ((c :: rest).drop pat.length).length ≤ a := by
            simp only [List.length_drop, List.length_cons] at h1 ⊢
            omega
          have hd2 : ((c :: rest).drop pat.length).length ≤ b := by
            simp only [List.length_drop, List.length_cons] at h2 ⊢
            omega
          rw [ih b _ hd hd2]
        · rw [if_neg hp, if_neg hp]
          have hr : rest.length ≤ a := by simp at h1; omega
          have hr2 : rest.length ≤ b := by simp at h2; omega
          rw [ih b rest hr hr2]

/-- Model of JavaScript `s.padStart(3, "0")`: left-pad with zeros to length
three (strings already that long are returned unchanged). -/
def padStart3 (s : String) : String :=
  String.mk (List.replicate (3 - s.length) '0' ++ s.data)

/-! ### Data model (the `Rule` and `MemoryEntry` interfaces) -/

/-- Embedding of the `Rule` interface of the rules server. -/
structure Rule where
  id : String
  title : String
  category : String
  description : String
  content : String
  tags : List String
  examples : List String
  relatedRules : List String
  timestamp : String
  version : String
deriving DecidableEq

/-- Embedding of the `RuleCategory` interface (the category index entry:
name, description, member id list). -/
structure RuleCategory where
  name : String
  description : String
  rules : List String
deriving DecidableEq

/-- Embedding of the `context` object of a `MemoryEntry`: four optional
string fields, in the declared key order. -/
structure MemoryContext where
  language : Option String
  framework : Option String
  problem : Option String
  solution : Option String
deriving DecidableEq

/-- Model of JavaScript `Object.values(memory.context)`: the values of the
keys present on the object, in the interface's declaration order. -/
def MemoryContext.values (c : MemoryContext) : List String :=
  [c.language, c.framework, c.problem, c.solution].filterMap id

/-- Embedding of the `MemoryEntry` interface of the memory server. -/
structure MemoryEntry where
  id : String
  project : String
  category : String
  title : String
  content : String
  tags : List String
  timestamp : String
  context : MemoryContext
deriving DecidableEq

/-! ### Relevance scorers (`calculateSimilarity` of each server)

Both scorers feed the search query directly to `new RegExp(queryLower, "g")`
for the content signal.  This embedding interprets that pattern literally,
which is exactly the behaviour of the source on queries free of regex
metacharacters; queries containing metacharacters get full ECMAScript regex
semantics (and invalid patterns throw — see the error-handling analysis),
which is outside this model. -/

/-- Characters that are metacharacters (or escape/grouping characters) in an
ECMAScript regular expression; a pattern avoiding all of them denotes the
literal string itself. -/
def regexSpecialChars : List Char :=
  ['\\', '^', '$', '.', '|', '?', '*', '+', '(', ')', '[', ']', '{', '}']

/-- Queries on which the source's `new RegExp(queryLower, "g")` compiles and
matches the query text literally: no character is a regex metacharacter. -/
def patternFree (q : String) : Bool :=
  q.data.all (fun c => !(regexSpecialChars.contains c))

/-- Embedding of `calculateSimilarity` of the rules server (title +50,
content occurrences x15, symmetric tag matches x40, category +30,
description +25, example matches x10), accumulated in source order. -/
def calculateSimilarityRule (query : String) (rule : Rule) : Nat :=
  let queryLower := jsToLower query
  let score0 : Nat := 0
  let score1 := if jsIncludes (jsToLower rule.title) queryLower then score0 + 50 else score0
  let contentMatches := countMatches queryLower.data (jsToLower rule.content).data
  let score2 := score1 + contentMatches * 15
  let tagMatches := (rule.tags.filter (fun tag =>
      jsIncludes (jsToLower tag) queryLower || jsIncludes queryLower (jsToLower tag))).length
  let score3 := score2 + tagMatches * 40
  let score4 := if jsIncludes (jsToLower rule.category) queryLower then score3 + 30 else score3
  let score5 := if jsIncludes (jsToLower rule.description) queryLower then score4 + 25 else score4
  let exampleMatches := (rule.examples.filter (fun ex =>
      jsIncludes (jsToLower ex) queryLower)).length
  score5 + exampleMatches * 10

/-- Embedding of `calculateSimilarity` of the memory server (title +50,
content occurrences x20, symmetric tag matches x30, joined context values
+25, category +25), accumulated in source order. -/
def calculateSimilarityMemory (query : String) (memory : MemoryEntry) : Nat :=
  let queryLower := jsToLower query
  let score0 : Nat := 0
  let score1 := if jsIncludes (jsToLower memory.title) queryLower then score0 + 50 else score0
  let contentMatches := countMatches queryLower.data (jsToLower memory.content).data
  let score2 := score1 + contentMatches * 20
  let tagMatches := (memory.tags.filter (fun tag =>
      jsIncludes (jsToLower tag) queryLower || jsIncludes queryLower (jsToLower tag))).length
  let score3 := score2 + tagMatches * 30
  let contextText := jsToLower (String.intercalate " " memory.context.values)
  let score4 := if jsIncludes contextText queryLower then score3 + 25 else score3
  if jsIncludes (jsToLower memory.category) queryLower then score4 + 25 else score4

/-! ### Query filters (the filter stage of `searchRules` / `searchMemories`) -/

/-- Embedding of the category filter of `searchRules`: applied only when the
argument is supplied, case-insensitive substring match on the category. -/
def filterByCategoryRules (category : Option String) (rules : List Rule) : List Rule :=
  match category with
  | none => rules
  | some c => rules.filter (fun r => jsIncludes (jsToLower r.category) (jsToLower c))

/-- Embedding of the tags filter of `searchRules`: applied only when a
non-empty tag list is supplied; a record survives when ANY requested tag is
a case-insensitive substring of ANY record tag (`ruleTag.toLowerCase()
.includes(tag.toLowerCase())` — note the single direction). -/
def filterByTagsRules (tags : Option (List String)) (rules : List Rule) : List Rule :=
  match tags with
  | none => rules
  | some ts =>
    if ts.length > 0 then
      rules.filter (fun r => ts.any (fun tag =>
        r.tags.any (fun ruleTag => jsIncludes (jsToLower ruleTag) (jsToLower tag))))
    else rules

/-- Filter stage of `searchRules`: category filter, then tags filter. -/
def applyRuleFilters (category : Option String) (tags : Option (List String))
    (rules : List Rule) : List Rule :=
  filterByTagsRules tags (filterByCategoryRules category rules)

/-- Embedding of the project filter of `searchMemories`. -/
def filterByProjectMemories (project : Option String) (ms : List MemoryEntry) :
    List MemoryEntry :=
  match project with
  | none => ms
  | some p => ms.filter (fun m => jsIncludes (jsToLower m.project) (jsToLower p))

/-- Embedding of the category filter of `searchMemories`. -/
def filterByCategoryMemories (category : Option String) (ms : List MemoryEntry) :
    List MemoryEntry :=
  match category with
  | none => ms
  | some c => ms.filter (fun m => jsIncludes (jsToLower m.category) (jsToLower c))

/-- Embedding of the tags filter of `searchMemories` (same single-direction
substring test as the rules variant). -/
def filterByTagsMemories (tags : Option (List String)) (ms : List MemoryEntry) :
    List MemoryEntry :=
  match tags with
  | none => ms
  | some ts =>
    if ts.length > 0 then
      ms.filter (fun m => ts.any (fun tag =>
        m.tags.any (fun memTag => jsIncludes (jsToLower memTag) (jsToLower tag))))
    else ms

/-- Filter stage of `searchMemories`: project, then category, then tags. -/
def applyMemoryFilters (project category : Option String)
    (tags : Option (List String)) (ms : List MemoryEntry) : List MemoryEntry :=
  filterByTagsMemories tags (filterByCategoryMemories category (filterByProjectMemories project ms))

/-! ### Ranker/limiter

Both servers rank with `results.sort((a, b) => b.similarity - a.similarity)`.
ECMAScript `Array.prototype.sort` is stable, and with that comparator it
sorts descending by similarity; the output of a stable descending sort is
uniquely determined by the input, and is computed here by stable insertion. -/

/-- Stable descending insertion: `x` goes after every element of strictly
larger score and before the first element of equal or smaller score, so
elements inserted earlier (further right in the original list) never jump
ahead of equal-scored ones. -/
def sortInsert {α : Type} (x : α × Nat) : List (α × Nat) → List (α × Nat)
  | [] => [x]
  | y :: ys => if y.2 > x.2 then y :: sortInsert x ys else x :: y :: ys

/-- Stable descending sort by score, the behaviour of the source's
`sort((a, b) => b.similarity - a.similarity)`. -/
def sortByScoreDesc {α : Type} : List (α × Nat) → List (α × Nat)
  | [] => []
  | x :: xs => sortInsert x (sortByScoreDesc xs)

/-- Scored candidates of `searchRules`: the filter stage's survivors paired
with their similarity, entries of similarity 0 dropped (`.map(...)
.filter(result => result.similarity > 0)`). -/
def searchRulesScored (rules : List Rule) (query : String)
    (category : Option String) (tags : Option (List String)) : List (Rule × Nat) :=
  ((applyRuleFilters category tags rules).map
    (fun r => (r, calculateSimilarityRule query r))).filter (fun p => 0 < p.2)

/-- Embedding of the result pipeline of `searchRules`: filter, score, drop
zero scores, stable-sort descending, `slice(0, limit)` (limit defaults
to 5). -/
def searchRules (rules : List Rule) (query : String) (category : Option String)
    (tags : Option (List String)) (lim : Nat := 5) : List (Rule × Nat) :=
  (sortByScoreDesc (searchRulesScored rules query category tags)).take lim

/-- Scored candidates of `searchMemories` (each result also carries a
`relevantTags` list in the source; it is derived display data used by no
claim and omitted here). -/
def searchMemoriesScored (ms : List MemoryEntry) (query : String)
    (project category : Option String) (tags : Option (List String)) :
    List (MemoryEntry × Nat) :=
  ((applyMemoryFilters project category tags ms).map
    (fun m => (m, calculateSimilarityMemory query m))).filter (fun p => 0 < p.2)

/-- Embedding of the result pipeline of `searchMemories`. -/
def searchMemories (ms : List MemoryEntry) (query : String)
    (project category : Option String) (tags : Option (List String))
    (lim : Nat := 5) : List (MemoryEntry × Nat) :=
  (sortByScoreDesc (searchMemoriesScored ms query project category tags)).take lim

/-! ### Identity allocator and rule-store mutations -/

/-- Embedding of `generateId` of the rules server:
`category.substring(0, 3).toLowerCase()` (the first three characters of the
category, all of it when shorter), a hyphen, and
`(count of rules whose category === category) + 1` rendered by
`toString().padStart(3, "0")`. -/
def generateId (rules : List Rule) (category : String) : String :=
  let pfx := jsToLower (jsTake category 3)
  let count := (rules.filter (fun r => r.category == category)).length + 1
  pfx ++ "-" ++ padStart3 (Nat.repr count)

/-- State of the rules server: the record list and the category index. -/
structure RuleStore where
  rules : List Rule
  categories : List RuleCategory
deriving DecidableEq

/-- Initial empty state (no rules, no categories). -/
def emptyStore : RuleStore := { rules := [], categories := [] }

/-- Arguments of a schema-valid `create_rule` request: the three required
fields present, the optional ones possibly absent. -/
structure CreateRuleArgs where
  title : String
  category : String
  description : Option String
  content : String
  tags : Option (List String)
  examples : Option (List String)
deriving DecidableEq

/-- Replacement of the first category with the given name by `f`, the
effect of the source's `categories.find(...)` followed by in-place
mutation of the found object. -/
def updateFirstCat (cats : List RuleCategory) (name : String)
    (f : RuleCategory → RuleCategory) : List RuleCategory :=
  match cats with
  | [] => []
  | c :: rest =>
    if c.name == name then f c :: rest else c :: updateFirstCat rest name f

/-- Record built by `createRule` on a schema-valid request: minted id,
optional fields defaulted as in the source (`description || ""`,
`tags || []`, `examples || []`, `relatedRules: []`, `version: "1.0.0"`),
timestamp from the clock. -/
def createdRule (store : RuleStore) (args : CreateRuleArgs) (now : String) : Rule :=
  { id := generateId store.rules args.category
    title := args.title
    category := args.category
    description := args.description.getD ""
    content := args.content
    tags := args.tags.getD []
    examples := args.examples.getD []
    relatedRules := []
    timestamp := now
    version := "1.0.0" }

/-- Embedding of `createRule` on a schema-valid request: build the record,
push it, then push its id onto the member list of its category (the first
index entry with that name) — creating the category with the default
description when absent. -/
def createRule (store : RuleStore) (args : CreateRuleArgs) (now : String) :
    RuleStore × Rule :=
  let rule := createdRule store args now
  let newCats :=
    match store.categories.find? (fun c => c.name == args.category) with
    | some _ =>
      updateFirstCat store.categories args.category
        (fun c => { c with rules := c.rules ++ [rule.id] })
    | none =>
      store.categories ++
        [{ name := args.category
           description := "Rules for " ++ args.category
           rules := [rule.id] }]
  ({ rules := store.rules ++ [rule], categories := newCats }, rule)

/-- Fold of a sequence of schema-valid `create_rule` requests over a store
(all stamped with the same clock value; the timestamp plays no role in id
allocation). -/
def createAll (store : RuleStore) (reqs : List CreateRuleArgs) (now : String) :
    RuleStore :=
  reqs.foldl (fun s a => (createRule s a now).1) store

/-- Removal of the first rule with the given id, returning it and the
remaining list — the `findIndex` + `splice(ruleIndex, 1)` of `deleteRule`;
`none` when no rule matches (the source throws `Rule not found`). -/
def deleteRuleAux (id : String) : List Rule → Option (Rule × List Rule)
  | [] => none
  | r :: rest =>
    if r.id == id then some (r, rest)
    else (deleteRuleAux id rest).map (fun p => (p.1, r :: p.2))

/-- Embedding of `deleteRule`: remove the first rule with the id and filter
the id out of the member list of the first category named after the rule's
category (when one exists). -/
def deleteRule (store : RuleStore) (id : String) : Option RuleStore :=
  match deleteRuleAux id store.rules with
  | none => none
  | some (rule, rules) =>
    some { rules := rules
           categories := updateFirstCat store.categories rule.category
             (fun c => { c with rules := c.rules.filter (fun rid => rid != id) }) }

/-- Partial update supplied to `update_rule`: the updatable fields of the
tool's schema, each possibly absent (`const { id, ...updates } = args`
strips the id before spreading). -/
structure RuleUpdate where
  title : Option String
  category : Option String
  description : Option String
  content : Option String
  tags : Option (List String)
  examples : Option (List String)
deriving DecidableEq

/-- Effect of `{ ...oldRule, ...updates, timestamp: new Date().toISOString() }`:
supplied fields replace the old values, unsupplied fields are kept, the id
(stripped from `updates`), `relatedRules` and `version` are kept, and the
timestamp is overwritten last. -/
def applyRuleUpdate (r : Rule) (u : RuleUpdate) (now : String) : Rule :=
  { id := r.id
    title := u.title.getD r.title
    category := u.category.getD r.category
    description := u.description.getD r.description
    content := u.content.getD r.content
    tags := u.tags.getD r.tags
    examples := u.examples.getD r.examples
    relatedRules := r.relatedRules
    timestamp := now
    version := r.version }

/-- In-place replacement of the first rule with the given id by its updated
version (`findIndex` + assignment at that index); `none` when absent. -/
def updateRuleAux (u : RuleUpdate) (now : String) (id : String) :
    List Rule → Option (List Rule)
  | [] => none
  | r :: rest =>
    if r.id == id then some (applyRuleUpdate r u now :: rest)
    else (updateRuleAux u now id rest).map (fun rs => r :: rs)

/-- Embedding of `updateRule`: the record list gets the in-place update,
the category index is not touched by this handler. -/
def updateRule (store : RuleStore) (id : String) (u : RuleUpdate) (now : String) :
    Option RuleStore :=
  (updateRuleAux u now id store.rules).map
    (fun rs => { rules := rs, categories := store.categories })

/-! ### The raw `create_rule` handler (no argument validation)

The tool schema declares `title`, `category` and `content` required, but the
handler reads `args.title` / `args.content` without checking and only fails
incidentally — `generateId(args.category)` dereferences
`undefined.substring` — when the category is missing.  The record actually
constructed can therefore carry `undefined` in `title` or `content`, which
the following JS-value-level model makes visible. -/

/-- Raw arguments of a `create_rule` call; `none` is an absent property. -/
structure CreateRuleRequest where
  title : Option String
  category : Option String
  description : Option String
  content : Option String
  tags : Option (List String)
  examples : Option (List String)
deriving DecidableEq

/-- Record as built by the unvalidated handler: `title` and `content` are
copied from the arguments verbatim and may be `undefined` (`none`); the
other fields are defaulted exactly as in the source. -/
structure JsRule where
  id : String
  title : Option String
  category : String
  description : String
  content : Option String
  tags : List String
  examples : List String
  relatedRules : List String
  timestamp : String
  version : String
deriving DecidableEq

/-- Runtime failure of the handler (the `TypeError` thrown by
`undefined.substring` inside `generateId`), reported by the dispatch
wrapper as an error message. -/
inductive JsError where
  | typeError
deriving DecidableEq

/-- Embedding of `createRule` on raw arguments: no required-field check; a
missing category makes `generateId` throw, any other combination appends a
record built from the arguments as they are. -/
def createRuleJs (rules : List Rule) (args : CreateRuleRequest) (now : String) :
    Except JsError JsRule :=
  match args.category with
  | none => Except.error JsError.typeError
  | some cat =>
    Except.ok
      { id := generateId rules cat
        title := args.title
        category := cat
        description := args.description.getD ""
        content := args.content
        tags := args.tags.getD []
        examples := args.examples.getD []
        relatedRules := []
        timestamp := now
        version := "1.0.0" }

/-! ### Facts about the stable descending sort -/

theorem sortInsert_split {α : Type} (x : α × Nat) (l : List (α × Nat)) :
    ∃ p q, l = p ++ q ∧ sortInsert x l = p ++ x :: q ∧ ∀ y ∈ p, x.2 < y.2 := by
  induction l with
  | nil => exact ⟨[], [], rfl, rfl, by simp⟩
  | cons y ys ih =>
    by_cases h : y.2 > x.2
    · obtain ⟨p, q, hl, hs, hp⟩ := ih
      refine ⟨y :: p, q, by simp [hl], by simp [sortInsert, h, hs], ?_⟩
      intro z hz
      rcases List.mem_cons.mp hz with rfl | hz
      · exact h
      · exact hp z hz
    · exact ⟨[], y :: ys, rfl, by simp [sortInsert, h], by simp⟩

theorem sortInsert_perm {α : Type} (x : α × Nat) (l : List (α × Nat)) :
    List.Perm (sortInsert x l) (x :: l) := by
  obtain ⟨p, q, hl, hs, _⟩ := sortInsert_split x l
  rw [hs, hl]
  exact List.perm_middle

theorem sortByScoreDesc_perm {α : Type} (l : List (α × Nat)) :
    List.Perm (sortByScoreDesc l) l := by
  induction l with
  | nil => rfl
  | cons x xs ih =>
    exact ((sortInsert_perm x (sortByScoreDesc xs)).trans (ih.cons x))

theorem sortInsert_pairwise {α : Type} (x : α × Nat) (l : List (α × Nat))
    (h : l.Pairwise (fun a b => b.2 ≤ a.2)) :
    (sortInsert x l).Pairwise (fun a b => b.2 ≤ a.2) := by
  induction l with
  | nil => simp [sortInsert]
  | cons y ys ih =>
    rw [List.pairwise_cons] at h
    by_cases hc : y.2 > x.2
    · rw [sortInsert, if_pos hc, List.pairwise_cons]
      refine ⟨?_, ih h.2⟩
      intro z hz
      rcases List.mem_cons.mp ((sortInsert_perm x ys).mem_iff.mp hz) with rfl | hz
      · exact Nat.le_of_lt hc
      · exact h.1 z hz
    · rw [sortInsert, if_neg hc, List.pairwise_cons]
      refine ⟨?_, List.pairwise_cons.mpr h⟩
      intro z hz
      rcases List.mem_cons.mp hz with rfl | hz
      · exact Nat.le_of_not_lt hc
      · exact Nat.le_trans (h.1 z hz) (Nat.le_of_not_lt hc)

theorem sortByScoreDesc_pairwise {α : Type} (l : List (α × Nat)) :
    (sortByScoreDesc l).Pairwise (fun a b => b.2 ≤ a.2) := by
  induction l with
  | nil => simp [sortByScoreDesc]
  | cons x xs ih => exact sortInsert_pairwise x _ ih

theorem sortInsert_filter {α : Type} (x : α × Nat) (l : List (α × Nat)) (k : Nat) :
    (sortInsert x l).filter (fun p => p.2 == k) =
      if x.2 == k then x :: l.filter (fun p => p.2 == k)
      else l.filter (fun p => p.2 == k) := by
  obtain ⟨p, q, hl, hs, hp⟩ := sortInsert_split x l
  rw [hs, hl, List.filter_append, List.filter_append, List.filter_cons]
  by_cases hx : x.2 == k
  · have hpnil : p.filter (fun p => p.2 == k) = [] := by
      rw [List.filter_eq_nil_iff]
      intro y hy
      have hxk : x.2 = k := by simpa using hx
      have := hp y hy
      simp only [beq_iff_eq]
      omega
    simp [hx, hpnil]
  · simp [hx]

theorem sortByScoreDesc_filter {α : Type} (l : List (α × Nat)) (k : Nat) :
    (sortByScoreDesc l).filter (fun p => p.2 == k) =
      l.filter (fun p => p.2 == k) := by
  induction l with
  | nil => rfl
  | cons x xs ih =>
    rw [sortByScoreDesc, sortInsert_filter, List.filter_cons]
    by_cases hx : x.2 == k <;> simp [hx, ih]

theorem take_filter_isPref {α : Type} (p : α → Bool) (n : Nat) (l : List α) :
    (l.take n).filter p <+: l.filter p :=
  ⟨(l.drop n).filter p, by rw [← List.filter_append, List.take_append_drop]⟩

theorem rank_sorted {α : Type} (l : List (α × Nat)) (lim : Nat) :
    ((sortByScoreDesc l).take lim).Pairwise (fun a b => b.2 ≤ a.2) :=
  (sortByScoreDesc_pairwise l).sublist (List.take_sublist lim _)

theorem rank_stable {α : Type} (l : List (α × Nat)) (lim k : Nat) :
    ((sortByScoreDesc l).take lim).filter (fun p => p.2 == k) <+:
      l.filter (fun p => p.2 == k) := by
  have h := take_filter_isPref (fun p : α × Nat => p.2 == k) lim (sortByScoreDesc l)
  rwa [sortByScoreDesc_filter] at h

theorem rank_take_mem {α : Type} {l : List (α × Nat)} {lim : Nat} {p : α × Nat}
    (hp : p ∈ (sortByScoreDesc l).take lim) : p ∈ l :=
  (sortByScoreDesc_perm l).mem_iff.mp (List.take_subset lim _ hp)

/-- C6: in both search pipelines the returned sequence is sorted
non-increasing by score, and entries of equal score keep the relative order
they had among the scored survivors of the filter stage (which lists the
filter's output in insertion order): for every score value, the returned
entries with that score form a prefix of the scored candidates with that
score, in candidate order. -/
theorem claim_c6 :
    (∀ (rules : List Rule) (query : String) (category : Option String)
        (tags : Option (List String)) (lim : Nat),
      (searchRules rules query category tags lim).Pairwise (fun a b => b.2 ≤ a.2) ∧
      ∀ k : Nat,
        (searchRules rules query category tags lim).filter (fun p => p.2 == k) <+:
          (searchRulesScored rules query category tags).filter (fun p => p.2 == k)) ∧
    (∀ (ms : List MemoryEntry) (query : String) (project category : Option String)
        (tags : Option (List String)) (lim : Nat),
      (searchMemories ms query project category tags lim).Pairwise (fun a b => b.2 ≤ a.2) ∧
      ∀ k : Nat,
        (searchMemories ms query project category tags lim).filter (fun p => p.2 == k) <+:
          (searchMemoriesScored ms query project category tags).filter (fun p => p.2 == k)) := by
  constructor
  · intro rules query category tags lim
    exact ⟨rank_sorted _ lim, fun k => rank_stable _ lim k⟩
  · intro ms query project category tags lim
    exact ⟨rank_sorted _ lim, fun k => rank_stable _ lim k⟩

/-- C7: both search pipelines return at most `limit` entries (the model's
`lim` argument, defaulted to 5 exactly as in the source), every returned
record is one of the filter stage's survivors, its reported score is the
scorer's value on it, and no returned entry has score 0 (scores are
naturals, so score ≤ 0 means score = 0). -/
theorem claim_c7 :
    (∀ (rules : List Rule) (query : String) (category : Option String)
        (tags : Option (List String)) (lim : Nat),
      (searchRules rules query category tags lim).length ≤ lim ∧
      ∀ p ∈ searchRules rules query category tags lim,
        p.1 ∈ applyRuleFilters category tags rules ∧
        p.2 = calculateSimilarityRule query p.1 ∧ 0 < p.2) ∧
    (∀ (ms : List MemoryEntry) (query : String) (project category : Option String)
        (tags : Option (List String)) (lim : Nat),
      (searchMemories ms query project category tags lim).length ≤ lim ∧
      ∀ p ∈ searchMemories ms query project category tags lim,
        p.1 ∈ applyMemoryFilters project category tags ms ∧
        p.2 = calculateSimilarityMemory query p.1 ∧ 0 < p.2) := by
  constructor
  · intro rules query category tags lim
    refine ⟨List.length_take_le lim _, ?_⟩
    intro p hp
    have hmem : p ∈ searchRulesScored rules query category tags := rank_take_mem hp
    rw [searchRulesScored, List.mem_filter] at hmem
    obtain ⟨hmap, hpos⟩ := hmem
    obtain ⟨r, hr, hrp⟩ := List.mem_map.mp hmap
    subst hrp
    exact ⟨hr, rfl, by simpa using hpos⟩
  · intro ms query project category tags lim
    refine ⟨List.length_take_le lim _, ?_⟩
    intro p hp
    have hmem : p ∈ searchMemoriesScored ms query project category tags := rank_take_mem hp
    rw [searchMemoriesScored, List.mem_filter] at hmem
    obtain ⟨hmap, hpos⟩ := hmem
    obtain ⟨m, hm, hmp⟩ := List.mem_map.mp hmap
    subst hmp
    exact ⟨hm, rfl, by simpa using hpos⟩

/-! ### Claim-side scoring signals (the spec's scoring table) -/

/-- Spec signal: +50 when the lowercased query is a substring of the
lowercased title. -/
def titleSignal (query s : String) : Nat :=
  if jsIncludes (jsToLower s) (jsToLower query) then 50 else 0

/-- Spec signal: `w` per tag T with lowercased T containing the lowercased
query or the lowercased query containing lowercased T. -/
def tagsSignal (w : Nat) (query : String) (tags : List String) : Nat :=
  w * (tags.filter (fun t =>
    jsIncludes (jsToLower t) (jsToLower query) ||
    jsIncludes (jsToLower query) (jsToLower t))).length

/-- Spec signal: +w when the lowercased query is a substring of the
lowercased category. -/
def categorySignal (w : Nat) (query c : String) : Nat :=
  if jsIncludes (jsToLower c) (jsToLower query) then w else 0

/-- Spec signal: `w` times the count of non-overlapping occurrences of the
(lowercased) query in the lowercased content. -/
def contentSignal (w : Nat) (query content : String) : Nat :=
  w * countMatches (jsToLower query).data (jsToLower content).data

/-- Spec signal: +25 when the lowercased query is a substring of the
concatenated context values (memories variant). -/
def contextSignal (query : String) (ctx : MemoryContext) : Nat :=
  if jsIncludes (jsToLower (String.intercalate " " ctx.values)) (jsToLower query) then 25 else 0

/-- Spec signal: +25 when the lowercased query is a substring of the
lowercased description (rules variant). -/
def descriptionSignal (query d : String) : Nat :=
  if jsIncludes (jsToLower d) (jsToLower query) then 25 else 0

/-- Spec signal: +10 per example string containing the lowercased query
(rules variant). -/
def examplesSignal (query : String) (exs : List String) : Nat :=
  10 * (exs.filter (fun e => jsIncludes (jsToLower e) (jsToLower query))).length

/-- C1: for every record and every query free of regex metacharacters (the
domain on which the query text, used verbatim as a match pattern, stands
for itself and "occurrences of the query" is meaningful), the relevance
score is exactly the sum of the spec's signals with the per-variant weights
(title +50; tags x40 rules / x30 memories; category +30 / +25; content
occurrences x15 / x20; description +25 rules; context +25 memories;
examples x10 rules), each signal a natural number (hence non-negative) and
the total an uncapped sum. -/
theorem claim_c1 (query : String) (_hq : patternFree query = true) :
    (∀ r : Rule, calculateSimilarityRule query r =
      titleSignal query r.title + tagsSignal 40 query r.tags +
      categorySignal 30 query r.category + contentSignal 15 query r.content +
      descriptionSignal query r.description + examplesSignal query r.examples) ∧
    (∀ m : MemoryEntry, calculateSimilarityMemory query m =
      titleSignal query m.title + tagsSignal 30 query m.tags +
      categorySignal 25 query m.category + contentSignal 20 query m.content +
      contextSignal query m.context) := by
  constructor
  · intro r
    simp only [calculateSimilarityRule, titleSignal, tagsSignal, categorySignal,
      contentSignal, descriptionSignal, examplesSignal]
    split_ifs <;> omega
  · intro m
    simp only [calculateSimilarityMemory, titleSignal, tagsSignal, categorySignal,
      contentSignal, contextSignal]
    split_ifs <;> omega

/-- Concrete rule used to instantiate theorems about the rules variant. -/
def ruleGit : Rule :=
  { id := "git-001", title := "Commit Message Format", category := "git",
    description := "Use conventional commit messages",
    content := "Follow the git format git", tags := ["git", "commits"],
    examples := ["feat: git thing"], relatedRules := [], timestamp := "t",
    version := "1.0.0" }

/-- Concrete memory entry used to instantiate theorems about the memories
variant. -/
def memGit : MemoryEntry :=
  { id := "mem_1_a", project := "ais", category := "pattern",
    title := "Git hook setup", content := "how to set up a git hook",
    tags := ["git", "hooks"], timestamp := "t",
    context := { language := some "bash", framework := none,
                 problem := some "git hooks", solution := none } }

/-- Witness for C1 at the query "git", a rule and a memory entry. -/
theorem claim_c1_witness :
    patternFree "git" = true ∧
    calculateSimilarityRule "git" ruleGit =
      titleSignal "git" ruleGit.title + tagsSignal 40 "git" ruleGit.tags +
      categorySignal 30 "git" ruleGit.category + contentSignal 15 "git" ruleGit.content +
      descriptionSignal "git" ruleGit.description + examplesSignal "git" ruleGit.examples ∧
    calculateSimilarityMemory "git" memGit =
      titleSignal "git" memGit.title + tagsSignal 30 "git" memGit.tags +
      categorySignal 25 "git" memGit.category + contentSignal 20 "git" memGit.content +
      contextSignal "git" memGit.context :=
  ⟨by decide, (claim_c1 "git" (by decide)).1 ruleGit, (claim_c1 "git" (by decide)).2 memGit⟩

/-! ### C3: the tags filter -/

/-- Claim-side tags predicate: some requested tag Q and some record tag T
with lowercased Q a substring of lowercased T or lowercased T a substring
of lowercased Q (the symmetric containment the claim describes). -/
def symTagMatch (reqTags recTags : List String) : Bool :=
  reqTags.any (fun q => recTags.any (fun t =>
    jsIncludes (jsToLower t) (jsToLower q) || jsIncludes (jsToLower q) (jsToLower t)))

/-- Source-side tags predicate: some requested tag Q is a (case-insensitive)
substring of some record tag T — the single direction the filter tests. -/
def oneWayTagMatch (reqTags recTags : List String) : Bool :=
  reqTags.any (fun q => recTags.any (fun t => jsIncludes (jsToLower t) (jsToLower q)))

/-- Concrete rule whose only tag is "auth". -/
def ruleAuth : Rule :=
  { id := "sec-001", title := "T", category := "security", description := "",
    content := "", tags := ["auth"], examples := [], relatedRules := [],
    timestamp := "t", version := "1.0.0" }

/-- Counterexample to C3: for the requested tag "authentication" and a record
tagged "auth", the record tag IS a substring of the requested tag (so the
claim's symmetric containment keeps the record), yet the filter drops it —
the source only tests `ruleTag.toLowerCase().includes(tag.toLowerCase())`. -/
theorem claim_c3_counterexample :
    filterByTagsRules (some ["authentication"]) [ruleAuth] ≠
      [ruleAuth].filter (fun r => symTagMatch ["authentication"] r.tags) ∧
    symTagMatch ["authentication"] ruleAuth.tags = true ∧
    filterByTagsRules (some ["authentication"]) [ruleAuth] = [] := by
  refine ⟨?_, by decide, by decide⟩
  decide

/-- C3 (amended): for every non-empty requested tag list, the tags filter of
both variants keeps exactly the records having some tag T and some requested
tag Q with the lowercased Q a substring of the lowercased T (one direction
only — the requested tag must occur inside a record tag). -/
theorem claim_c3_amended (ts : List String) (h : ts ≠ []) :
    (∀ rules : List Rule, filterByTagsRules (some ts) rules =
      rules.filter (fun r => oneWayTagMatch ts r.tags)) ∧
    (∀ ms : List MemoryEntry, filterByTagsMemories (some ts) ms =
      ms.filter (fun m => oneWayTagMatch ts m.tags)) := by
  have hl : ts.length > 0 := List.length_pos.mpr h
  constructor
  · intro rules
    simp [filterByTagsRules, oneWayTagMatch, hl]
  · intro ms
    simp [filterByTagsMemories, oneWayTagMatch, hl]

/-- Witness for the amended C3 on a concrete store and tag list. -/
theorem claim_c3_amended_witness :
    filterByTagsRules (some ["auth"]) [ruleAuth] =
      [ruleAuth].filter (fun r => oneWayTagMatch ["auth"] r.tags) :=
  (claim_c3_amended ["auth"] (by decide)).1 [ruleAuth]

/-! ### Decimal rendering facts (for id injectivity)

`generateId` renders the per-category counter with `Nat.repr` (the model of
JS number-to-string) and pads it; injectivity of the rendered counter and
digit-only output are established by decoding the digit string back. -/

/-- Numeric value of a decimal digit character. -/
def decodeChar (c : Char) : Nat := c.toNat - 48

/-- Decimal value of a digit string (leading zeros ignored by value). -/
def decodeDigits (l : List Char) : Nat :=
  l.foldl (fun a c => 10 * a + decodeChar c) 0

/-- Reference rendering of a natural in base 10, most significant digit
first, by well-founded recursion on the value. -/
def digitsRec (n : Nat) : List Char :=
  if n < 10 then [Nat.digitChar n]
  else digitsRec (n / 10) ++ [Nat.digitChar (n % 10)]
decreasing_by exact Nat.div_lt_self (by omega) (by omega)

theorem toDigitsCore_eq_digitsRec :
    ∀ (fuel n : Nat) (ds : List Char), n < fuel →
      Nat.toDigitsCore 10 fuel n ds = digitsRec n ++ ds := by
  intro fuel
  induction fuel with
  | zero => intro n ds h; omega
  | succ f ih =>
    intro n ds h
    rw [Nat.toDigitsCore]
    by_cases h10 : n / 10 = 0
    · have hlt : n < 10 := by omega
      have hmod : n % 10 = n := Nat.mod_eq_of_lt hlt
      rw [digitsRec]
      simp [h10, hlt, hmod]
    · have hge : 10 ≤ n := by omega
      have hlt2 : n / 10 < f := by omega
      rw [if_neg h10, ih (n / 10) _ hlt2]
      conv_rhs => rw [digitsRec]
      rw [if_neg (by omega : ¬ n < 10)]
      simp [List.append_assoc]

theorem repr_data (n : Nat) : (Nat.repr n).data = digitsRec n := by
  show (Nat.toDigits 10 n).asString.data = digitsRec n
  rw [Nat.toDigits, toDigitsCore_eq_digitsRec (n + 1) n [] (Nat.lt_succ_self n)]
  simp [List.asString]

theorem decode_digitChar : ∀ d : Nat, d < 10 → decodeChar (Nat.digitChar d) = d := by
  decide

theorem digitChar_isDigit : ∀ d : Nat, d < 10 → (Nat.digitChar d).isDigit = true := by
  decide

theorem decode_digitsRec (n : Nat) : decodeDigits (digitsRec n) = n := by
  induction n using Nat.strong_induction_on with
  | _ n ih =>
    rw [digitsRec]
    by_cases h : n < 10
    · rw [if_pos h]
      simp [decodeDigits, decode_digitChar n h]
    · rw [if_neg h]
      have hdiv := ih (n / 10) (Nat.div_lt_self (by omega) (by omega))
      simp only [decodeDigits, List.foldl_append] at hdiv ⊢
      rw [hdiv]
      simp [decode_digitChar (n % 10) (Nat.mod_lt n (by omega))]
      omega

theorem digitsRec_isDigit (n : Nat) : ∀ c ∈ digitsRec n, c.isDigit = true := by
  induction n using Nat.strong_induction_on with
  | _ n ih =>
    rw [digitsRec]
    by_cases h : n < 10
    · rw [if_pos h]
      intro c hc
      rw [List.mem_singleton] at hc
      subst hc
      exact digitChar_isDigit n h
    · rw [if_neg h]
      intro c hc
      rcases List.mem_append.mp hc with hc | hc
      · exact ih (n / 10) (Nat.div_lt_self (by omega) (by omega)) c hc
      · rw [List.mem_singleton] at hc
        subst hc
        exact digitChar_isDigit (n % 10) (Nat.mod_lt n (by omega))

theorem foldl_zeros (m : Nat) :
    List.foldl (fun a c => 10 * a + decodeChar c) 0 (List.replicate m '0') = 0 := by
  induction m with
  | zero => rfl
  | succ k ih => simpa [List.replicate_succ, decodeChar] using ih

theorem decode_replicate_append (m : Nat) (l : List Char) :
    decodeDigits (List.replicate m '0' ++ l) = decodeDigits l := by
  simp [decodeDigits, List.foldl_append, foldl_zeros]

theorem padRepr_data (k : Nat) :
    (padStart3 (Nat.repr k)).data =
      List.replicate (3 - (Nat.repr k).length) '0' ++ digitsRec k := by
  simp [padStart3, repr_data]

theorem padRepr_inj (k1 k2 : Nat)
    (h : padStart3 (Nat.repr k1) = padStart3 (Nat.repr k2)) : k1 = k2 := by
  have hd := congrArg String.data h
  rw [padRepr_data, padRepr_data] at hd
  have := congrArg decodeDigits hd
  rwa [decode_replicate_append, decode_replicate_append, decode_digitsRec,
    decode_digitsRec] at this

theorem padRepr_digit (k : Nat) :
    ∀ c ∈ (padStart3 (Nat.repr k)).data, c.isDigit = true := by
  rw [padRepr_data]
  intro c hc
  rcases List.mem_append.mp hc with hc | hc
  · rw [List.eq_of_mem_replicate hc]
    decide
  · exact digitsRec_isDigit k c hc

theorem padRepr_no_dash (k : Nat) : ('-' : Char) ∉ (padStart3 (Nat.repr k)).data := by
  intro h
  have := padRepr_digit k _ h
  simp at this

theorem append_dash_inj :
    ∀ (l1 l2 s1 s2 : List Char), ('-' : Char) ∉ s1 → ('-' : Char) ∉ s2 →
      l1 ++ '-' :: s1 = l2 ++ '-' :: s2 → l1 = l2 ∧ s1 = s2 := by
  intro l1
  induction l1 with
  | nil =>
    intro l2 s1 s2 h1 h2 h
    cases l2 with
    | nil => simpa using h
    | cons b bs =>
      simp only [List.nil_append, List.cons_append, List.cons.injEq] at h
      exact absurd (h.2 ▸ List.mem_append_right bs (List.mem_cons_self _ _)) h1
  | cons a as ih =>
    intro l2 s1 s2 h1 h2 h
    cases l2 with
    | nil =>
      simp only [List.nil_append, List.cons_append, List.cons.injEq] at h
      exact absurd (h.2 ▸ List.mem_append_right as (List.mem_cons_self _ _)) h2
    | cons b bs =>
      simp only [List.cons_append, List.cons.injEq] at h
      obtain ⟨rfl, htl⟩ := h
      obtain ⟨he, hs⟩ := ih bs s1 s2 h1 h2 htl
      exact ⟨by rw [he], hs⟩

/-- Shape of every id `generateId` can mint: the lowercased three-character
category prefix, a hyphen, the zero-padded counter value. -/
def mkId (c : String) (k : Nat) : String :=
  jsToLower (jsTake c 3) ++ "-" ++ padStart3 (Nat.repr k)

theorem generateId_eq_mkId (rules : List Rule) (c : String) :
    generateId rules c =
      mkId c ((rules.filter (fun r => r.category == c)).length + 1) := rfl

theorem mkId_data (c : String) (k : Nat) :
    (mkId c k).data =
      (jsToLower (jsTake c 3)).data ++ '-' :: (padStart3 (Nat.repr k)).data := by
  simp [mkId, String.data_append]

theorem mkId_inj {c1 c2 : String} {k1 k2 : Nat} (h : mkId c1 k1 = mkId c2 k2) :
    jsToLower (jsTake c1 3) = jsToLower (jsTake c2 3) ∧ k1 = k2 := by
  have hd := congrArg String.data h
  rw [mkId_data, mkId_data] at hd
  obtain ⟨hp, hs⟩ := append_dash_inj _ _ _ _ (padRepr_no_dash k1) (padRepr_no_dash k2) hd
  exact ⟨String.ext hp, padRepr_inj k1 k2 (String.ext hs)⟩

/-! ### C4/C5: behaviour of the sequential id allocator -/

/-- Ids of the store's rules in a given category, in store order. -/
def catIds (rules : List Rule) (c : String) : List String :=
  (rules.filter (fun r => r.category == c)).map Rule.id

/-- Number of rules whose category is exactly `c`. -/
def catCount (rules : List Rule) (c : String) : Nat :=
  (rules.filter (fun r => r.category == c)).length

/-- Allocator invariant maintained by create sequences: in every category
`c` the ids read `mkId c 1, ..., mkId c (catCount c)` in store order. -/
def CatInv (rules : List Rule) : Prop :=
  ∀ c : String,
    catIds rules c = (List.range (catCount rules c)).map (fun i => mkId c (i + 1))

theorem catInv_nil : CatInv [] := by
  intro c
  simp [catIds, catCount]

theorem createRule_fst_rules (store : RuleStore) (args : CreateRuleArgs) (now : String) :
    ((createRule store args now).1).rules = store.rules ++ [createdRule store args now] := rfl

theorem createRule_snd (store : RuleStore) (args : CreateRuleArgs) (now : String) :
    (createRule store args now).2 = createdRule store args now := rfl

theorem catInv_step (rules : List Rule) (r : Rule) (hInv : CatInv rules)
    (hid : r.id = mkId r.category (catCount rules r.category + 1)) :
    CatInv (rules ++ [r]) := by
  intro c
  by_cases hc : r.category = c
  · subst hc
    have hcount : catCount (rules ++ [r]) r.category = catCount rules r.category + 1 := by
      simp [catCount, List.filter_append]
    rw [catIds, List.filter_append, List.map_append, hcount, List.range_succ,
      List.map_append]
    congr 1
    · exact hInv r.category
    · simp [hid]
  · have hne : (r.category == c) = false := by simp [hc]
    have hcount : catCount (rules ++ [r]) c = catCount rules c := by
      simp [catCount, List.filter_append, hne]
    rw [catIds, List.filter_append, hcount]
    simp only [List.filter_cons, hne, List.filter_nil, List.map_append,
      List.append_nil, Bool.false_eq_true, if_neg (by simp [hne] : ¬ (r.category == c) = true)]
    simpa [catIds] using hInv c

theorem createAll_inv (now : String) (P : String → Prop) :
    ∀ (reqs : List CreateRuleArgs) (store : RuleStore),
      CatInv store.rules → (∀ r ∈ store.rules, P r.category) →
      (∀ a ∈ reqs, P a.category) →
      CatInv (createAll store reqs now).rules ∧
        ∀ r ∈ (createAll store reqs now).rules, P r.category := by
  intro reqs
  induction reqs with
  | nil => intro store h1 h2 _; exact ⟨h1, h2⟩
  | cons a as ih =>
    intro store h1 h2 h3
    show CatInv (createAll (createRule store a now).1 as now).rules ∧ _
    apply ih
    · rw [createRule_fst_rules]
      exact catInv_step _ _ h1 rfl
    · intro r hr
      rw [createRule_fst_rules] at hr
      rcases List.mem_append.mp hr with hr | hr
      · exact h2 r hr
      · rw [List.mem_singleton] at hr
        subst hr
        exact h3 a (List.mem_cons_self a as)
    · intro b hb
      exact h3 b (List.mem_cons_of_mem a hb)

theorem id_shape {R : List Rule} (hInv : CatInv R) {r : Rule} (hr : r ∈ R) :
    ∃ k, r.id = mkId r.category (k + 1) := by
  have hmem : r.id ∈ catIds R r.category := by
    apply List.mem_map_of_mem
    rw [List.mem_filter]
    exact ⟨hr, by simp⟩
  rw [hInv r.category] at hmem
  obtain ⟨i, _, he⟩ := List.mem_map.mp hmem
  exact ⟨i, he.symm⟩

theorem nodup_ids_of_inv (R : List Rule) (hInv : CatInv R)
    (hcross : ∀ r1 ∈ R, ∀ r2 ∈ R, r1.category ≠ r2.category → r1.id ≠ r2.id) :
    (R.map Rule.id).Nodup := by
  rw [List.nodup_iff_count_le_one]
  intro a
  by_contra hcnt
  have hrep : List.Sublist (List.replicate 2 a) (R.map Rule.id) :=
    List.le_count_iff_replicate_sublist.mp (by omega)
  obtain ⟨l2, hl2, hmap⟩ := List.sublist_map_iff.mp hrep
  have hlen : l2.length = 2 := by
    have := congrArg List.length hmap
    simpa using this.symm
  obtain ⟨r1, r2, rfl⟩ : ∃ r1 r2, l2 = [r1, r2] := by
    match l2, hlen with
    | [r1, r2], _ => exact ⟨r1, r2, rfl⟩
  have ha1 : r1.id = a := by
    have := congrArg (fun l => l.headD "") hmap
    simpa using this.symm
  have ha2 : r2.id = a := by
    have := congrArg (fun l => l.getLastD "") hmap
    simpa using this.symm
  have hm1 : r1 ∈ R := hl2.subset (by simp)
  have hm2 : r2 ∈ R := hl2.subset (by simp)
  by_cases hcc : r1.category = r2.category
  · have hsubf : List.Sublist ([r1, r2].filter (fun r => r.category == r2.category))
        (R.filter (fun r => r.category == r2.category)) := hl2.filter _
    have heq2 : [r1, r2].filter (fun r => r.category == r2.category) = [r1, r2] := by
      simp [List.filter_cons, hcc]
    rw [heq2] at hsubf
    have hmap2 : List.Sublist [a, a] (catIds R r2.category) := by
      have := hsubf.map Rule.id
      simpa [catIds, ha1, ha2] using this
    rw [hInv r2.category] at hmap2
    have hnd : ((List.range (catCount R r2.category)).map
        (fun i => mkId r2.category (i + 1))).Nodup := by
      refine List.Nodup.map ?_ (List.nodup_range _)
      intro i j hij
      have := (mkId_inj hij).2
      omega
    have hcnt2 : 2 ≤ List.count a ((List.range (catCount R r2.category)).map
        (fun i => mkId r2.category (i + 1))) :=
      List.le_count_iff_replicate_sublist.mpr (by simpa using hmap2)
    have := List.nodup_iff_count_le_one.mp hnd a
    omega
  · exact absurd (ha1.trans ha2.symm) (hcross r1 hm1 r2 hm2 hcc)

/-- Create request with category "testing". -/
def reqTesting : CreateRuleArgs :=
  { title := "A", category := "testing", description := none, content := "x",
    tags := none, examples := none }

/-- Create request with category "tests". -/
def reqTests : CreateRuleArgs :=
  { title := "B", category := "tests", description := none, content := "x",
    tags := none, examples := none }

/-- Counterexample to C4: two creates in the distinct categories "testing"
and "tests" (same three-character prefix "tes", each the first rule of its
own category) both receive the id "tes-001" — across different categories
ids are not pairwise distinct. -/
theorem claim_c4_counterexample :
    ((createAll emptyStore [reqTesting, reqTests] "t").rules.map Rule.id) =
      ["tes-001", "tes-001"] ∧
    ¬ ((createAll emptyStore [reqTesting, reqTests] "t").rules.map Rule.id).Nodup := by
  exact ⟨by decide, by decide⟩

/-- C4 (amended): a sequence of rule creates from the empty store yields
pairwise distinct ids provided any two request categories sharing the same
lowercased three-character prefix are equal (in particular, all creates in
a single category, and creates across categories with distinct prefixes);
without that proviso distinct categories with a shared prefix collide, as
the counterexample shows. -/
theorem claim_c4_amended (reqs : List CreateRuleArgs) (now : String)
    (hpfx : ∀ a1 ∈ reqs, ∀ a2 ∈ reqs,
      jsToLower (jsTake a1.category 3) = jsToLower (jsTake a2.category 3) →
      a1.category = a2.category) :
    ((createAll emptyStore reqs now).rules.map Rule.id).Nodup := by
  obtain ⟨hInv, hP⟩ := createAll_inv now (fun c => ∃ a ∈ reqs, a.category = c)
    reqs emptyStore catInv_nil (by simp [emptyStore]) (fun a ha => ⟨a, ha, rfl⟩)
  apply nodup_ids_of_inv _ hInv
  intro r1 h1 r2 h2 hne hid
  apply hne
  obtain ⟨k1, e1⟩ := id_shape hInv h1
  obtain ⟨k2, e2⟩ := id_shape hInv h2
  rw [e1, e2] at hid
  have hpe := (mkId_inj hid).1
  obtain ⟨a1, ha1, hc1⟩ := hP r1 h1
  obtain ⟨a2, ha2, hc2⟩ := hP r2 h2
  rw [← hc1, ← hc2]
  apply hpfx a1 ha1 a2 ha2
  rw [hc1, hc2]
  exact hpe

/-- Create request with category "git" and the given title. -/
def reqG (t : String) : CreateRuleArgs :=
  { title := t, category := "git", description := none, content := "x",
    tags := none, examples := none }

/-- Witness for the amended C4: three creates, two in "git" and one in
"testing" (prefixes "git" and "tes" are distinct), yield distinct ids. -/
theorem claim_c4_amended_witness :
    (∀ a1 ∈ [reqG "A", reqG "B", reqTesting], ∀ a2 ∈ [reqG "A", reqG "B", reqTesting],
      jsToLower (jsTake a1.category 3) = jsToLower (jsTake a2.category 3) →
      a1.category = a2.category) ∧
    ((createAll emptyStore [reqG "A", reqG "B", reqTesting] "t").rules.map Rule.id).Nodup :=
  ⟨by decide, claim_c4_amended [reqG "A", reqG "B", reqTesting] "t" (by decide)⟩

/-- Claim-side id formula of C5: the first three characters of the category
lowercased, a hyphen, and the zero-padded (width 3) decimal rendering of
(number of records whose category equals the given one exactly) + 1. -/
def c5SpecId (rules : List Rule) (c : String) : String :=
  jsToLower (jsTake c 3) ++ "-" ++
    padStart3 (Nat.repr ((rules.countP (fun r => r.category == c)) + 1))

/-- C5: `generateId` computes exactly the claim's formula, and — because the
counter is the count of records currently present — deleting a rule in a
category lets the next create in that category reissue a previously assigned
id: concretely, after creating "git-001" and "git-002" and deleting
"git-002", the next create in "git" mints "git-002" again. -/
theorem claim_c5 :
    (∀ (rules : List Rule) (c : String), generateId rules c = c5SpecId rules c) ∧
    ((createRule ((createRule emptyStore (reqG "A") "t1").1) (reqG "B") "t2").2).id
      = "git-002" ∧
    ((deleteRule ((createRule ((createRule emptyStore (reqG "A") "t1").1)
        (reqG "B") "t2").1) "git-002").map
      (fun s3 => ((createRule s3 (reqG "C") "t3").2).id)) = some "git-002" := by
  refine ⟨?_, by decide, by decide⟩
  intro rules c
  rw [generateId_eq_mkId, c5SpecId, mkId, List.countP_eq_length_filter]

/-! ### C8/C10: the update operation -/

theorem updateRuleAux_spec (u : RuleUpdate) (now id : String) :
    ∀ (rules rules2 : List Rule), updateRuleAux u now id rules = some rules2 →
      ∃ i r, rules[i]? = some r ∧ r.id = id ∧
        (∀ j, j < i → ∀ rj, rules[j]? = some rj → rj.id ≠ id) ∧
        rules2 = rules.set i (applyRuleUpdate r u now) := by
  intro rules
  induction rules with
  | nil => intro rules2 h; simp [updateRuleAux] at h
  | cons r rest ih =>
    intro rules2 h
    rw [updateRuleAux] at h
    by_cases hr : (r.id == id) = true
    · rw [if_pos hr] at h
      refine ⟨0, r, by simp, by simpa using hr, by omega, ?_⟩
      simpa using (Option.some.inj h).symm
    · rw [if_neg hr] at h
      cases haux : updateRuleAux u now id rest with
      | none => rw [haux] at h; simp at h
      | some rs2 =>
        rw [haux] at h
        simp only [Option.map_some', Option.some.injEq] at h
        obtain ⟨i, r1, hget, hid, hbefore, hset⟩ := ih rs2 haux
        refine ⟨i + 1, r1, by simpa using hget, hid, ?_, ?_⟩
        · intro j hj rj hgj
          cases j with
          | zero =>
            simp only [List.getElem?_cons_zero, Option.some.injEq] at hgj
            subst hgj
            intro he
            exact hr (by simp [he])
          | succ j0 =>
            exact hbefore j0 (by omega) rj (by simpa using hgj)
        · rw [← h, hset]
          rfl

/-- Claim-side description of a successful update (C8): some position `i`
holds the first rule with the requested id; the store afterwards is the same
list with exactly that position replaced; the replacement keeps the id,
carries the fresh timestamp, takes each supplied field's new value, keeps
each unsupplied field (including the non-updatable `relatedRules` and
`version`), and every position other than `i` — and the category index —
is unchanged. -/
def C8Post (store : RuleStore) (id : String) (u : RuleUpdate) (now : String)
    (store2 : RuleStore) : Prop :=
  ∃ i r r2,
    store.rules[i]? = some r ∧ r.id = id ∧
    (∀ j, j < i → ∀ rj, store.rules[j]? = some rj → rj.id ≠ id) ∧
    store2.rules = store.rules.set i r2 ∧
    r2.id = r.id ∧ r2.timestamp = now ∧
    (∀ v, u.title = some v → r2.title = v) ∧
    (u.title = none → r2.title = r.title) ∧
    (∀ v, u.category = some v → r2.category = v) ∧
    (u.category = none → r2.category = r.category) ∧
    (∀ v, u.description = some v → r2.description = v) ∧
    (u.description = none → r2.description = r.description) ∧
    (∀ v, u.content = some v → r2.content = v) ∧
    (u.content = none → r2.content = r.content) ∧
    (∀ v, u.tags = some v → r2.tags = v) ∧
    (u.tags = none → r2.tags = r.tags) ∧
    (∀ v, u.examples = some v → r2.examples = v) ∧
    (u.examples = none → r2.examples = r.examples) ∧
    r2.relatedRules = r.relatedRules ∧ r2.version = r.version ∧
    (∀ j, j ≠ i → store2.rules[j]? = store.rules[j]?) ∧
    store2.categories = store.categories

/-- C8: every successful `updateRule` satisfies the claim's frame conditions
(`C8Post`): id preserved, timestamp refreshed, exactly the supplied fields
replaced, everything else — other fields, other records, the category
index — untouched. -/
theorem claim_c8 (store : RuleStore) (id : String) (u : RuleUpdate) (now : String)
    (store2 : RuleStore) (h : updateRule store id u now = some store2) :
    C8Post store id u now store2 := by
  rw [updateRule] at h
  cases haux : updateRuleAux u now id store.rules with
  | none => rw [haux] at h; simp at h
  | some rs2 =>
    rw [haux] at h
    simp only [Option.map_some', Option.some.injEq] at h
    obtain ⟨i, r, hget, hid, hbefore, hset⟩ := updateRuleAux_spec u now id store.rules rs2 haux
    refine ⟨i, r, applyRuleUpdate r u now, hget, hid, hbefore, ?_, rfl, rfl,
      ?_, ?_, ?_, ?_, ?_, ?_, ?_, ?_, ?_, ?_, ?_, ?_, rfl, rfl, ?_, ?_⟩
    · rw [← h, hset]
    · intro v hv; simp [applyRuleUpdate, hv]
    · intro hv; simp [applyRuleUpdate, hv]
    · intro v hv; simp [applyRuleUpdate, hv]
    · intro hv; simp [applyRuleUpdate, hv]
    · intro v hv; simp [applyRuleUpdate, hv]
    · intro hv; simp [applyRuleUpdate, hv]
    · intro v hv; simp [applyRuleUpdate, hv]
    · intro hv; simp [applyRuleUpdate, hv]
    · intro v hv; simp [applyRuleUpdate, hv]
    · intro hv; simp [applyRuleUpdate, hv]
    · intro v hv; simp [applyRuleUpdate, hv]
    · intro hv; simp [applyRuleUpdate, hv]
    · intro j hj
      rw [← h, hset, List.getElem?_set_ne (fun he => hj he.symm)]
    · rw [← h]

/-- Update request supplying only a new title. -/
def updTitle : RuleUpdate :=
  { title := some "New title", category := none, description := none,
    content := none, tags := none, examples := none }

/-- Concrete one-rule store used to instantiate the update theorems. -/
def storeGit : RuleStore :=
  { rules := [ruleGit],
    categories := [{ name := "git", description := "Git rules", rules := ["git-001"] }] }

/-- Witness for C8: updating the title of "git-001" in a concrete store. -/
theorem claim_c8_witness :
    C8Post storeGit "git-001" updTitle "t2"
      { rules := [applyRuleUpdate ruleGit updTitle "t2"], categories := storeGit.categories } :=
  claim_c8 storeGit "git-001" updTitle "t2" _ (by rfl)

/-- C9 (evaluation at the failing input): a `create_rule` request missing
the required `title` is not rejected — the handler performs no validation
and appends a record whose title is `undefined`, reporting success; the
same holds for a missing `content`.  Only a missing `category` fails, and
then with a `TypeError` from `generateId`, not a validation error. -/
theorem claim_c9_missing_title :
    createRuleJs []
      { title := none, category := some "git", description := none,
        content := some "c", tags := none, examples := none } "t0" =
      Except.ok
        { id := "git-001", title := none, category := "git", description := "",
          content := some "c", tags := [], examples := [], relatedRules := [],
          timestamp := "t0", version := "1.0.0" } ∧
    createRuleJs []
      { title := some "T", category := some "git", description := none,
        content := none, tags := none, examples := none } "t0" =
      Except.ok
        { id := "git-001", title := some "T", category := "git", description := "",
          content := none, tags := [], examples := [], relatedRules := [],
          timestamp := "t0", version := "1.0.0" } ∧
    createRuleJs []
      { title := some "T", category := none, description := none,
        content := some "c", tags := none, examples := none } "t0" =
      Except.error JsError.typeError := by
  exact ⟨rfl, rfl, rfl⟩

theorem updateFirstCat_mem_of_find (cats : List RuleCategory) (name : String)
    (f : RuleCategory → RuleCategory) :
    ∀ c, cats.find? (fun x => x.name == name) = some c →
      f c ∈ updateFirstCat cats name f := by
  induction cats with
  | nil => intro c h; simp at h
  | cons c0 rest ih =>
    intro c h
    by_cases h0 : (c0.name == name) = true
    · rw [List.find?_cons] at h
      simp only [h0, Option.some.injEq] at h
      subst h
      rw [updateFirstCat, if_pos h0]
      exact List.mem_cons_self _ _
    · have h0f : (c0.name == name) = false := by simpa using h0
      rw [List.find?_cons] at h
      simp only [h0f] at h
      rw [updateFirstCat, if_neg h0]
      exact List.mem_cons_of_mem _ (ih c h)

/-- C10: `update_rule` never touches the category index — after an update
that supplies a new category, the index is byte-for-byte the store's old
index, so the rule's id is still listed under its old category and is not
listed under the new one unless it already was; by contrast `createRule`
records the new id under its category and `deleteRule` removes the deleted
id from the rule's category entry. -/
theorem claim_c10 :
    (∀ (store : RuleStore) (id : String) (u : RuleUpdate) (now : String)
        (store2 : RuleStore) (newC : String),
      u.category = some newC → updateRule store id u now = some store2 →
      store2.categories = store.categories ∧
      (∃ i r, store.rules[i]? = some r ∧ r.id = id ∧
        store2.rules = store.rules.set i (applyRuleUpdate r u now) ∧
        (applyRuleUpdate r u now).category = newC) ∧
      (∀ cat ∈ store.categories, id ∈ cat.rules → cat ∈ store2.categories ∧ id ∈ cat.rules) ∧
      (∀ cat ∈ store.categories, id ∉ cat.rules → cat ∈ store2.categories ∧ id ∉ cat.rules)) ∧
    (∀ (store : RuleStore) (args : CreateRuleArgs) (now : String),
      ∃ cat ∈ ((createRule store args now).1).categories,
        cat.name = args.category ∧ ((createRule store args now).2).id ∈ cat.rules) ∧
    (∀ (store : RuleStore) (id : String) (store2 : RuleStore),
      deleteRule store id = some store2 →
      ∃ r rest, deleteRuleAux id store.rules = some (r, rest) ∧
        ∀ c1, store.categories.find? (fun c => c.name == r.category) = some c1 →
          ∃ c2 ∈ store2.categories, c2.name = c1.name ∧ id ∉ c2.rules) := by
  refine ⟨?_, ?_, ?_⟩
  · intro store id u now store2 newC hu h
    rw [updateRule] at h
    cases haux : updateRuleAux u now id store.rules with
    | none => rw [haux] at h; simp at h
    | some rs2 =>
      rw [haux] at h
      simp only [Option.map_some', Option.some.injEq] at h
      have hcats : store2.categories = store.categories := by rw [← h]
      obtain ⟨i, r, hget, hid, _, hset⟩ := updateRuleAux_spec u now id store.rules rs2 haux
      refine ⟨hcats, ⟨i, r, hget, hid, by rw [← h, hset], by simp [applyRuleUpdate, hu]⟩,
        ?_, ?_⟩
      · intro cat hcat hin
        exact ⟨hcats ▸ hcat, hin⟩
      · intro cat hcat hout
        exact ⟨hcats ▸ hcat, hout⟩
  · intro store args now
    cases hf : store.categories.find? (fun c => c.name == args.category) with
    | some c =>
      refine ⟨{ c with rules := c.rules ++ [(createdRule store args now).id] }, ?_, ?_, ?_⟩
      · show _ ∈ ((createRule store args now).1).categories
        simp only [createRule, hf]
        exact updateFirstCat_mem_of_find store.categories args.category _ c hf
      · have := List.find?_some hf
        simpa using this
      · simp [createRule_snd]
    | none =>
      refine ⟨{ name := args.category, description := "Rules for " ++ args.category,
                rules := [(createdRule store args now).id] }, ?_, rfl, ?_⟩
      · show _ ∈ ((createRule store args now).1).categories
        simp [createRule, hf]
      · simp [createRule_snd]
  · intro store id store2 h
    rw [deleteRule] at h
    cases haux : deleteRuleAux id store.rules with
    | none => rw [haux] at h; simp at h
    | some p =>
      obtain ⟨r, rest⟩ := p
      rw [haux] at h
      simp only [Option.some.injEq] at h
      refine ⟨r, rest, rfl, ?_⟩
      intro c1 hfind
      refine ⟨{ c1 with rules := c1.rules.filter (fun rid => rid != id) }, ?_, rfl, ?_⟩
      · rw [← h]
        exact updateFirstCat_mem_of_find store.categories r.category _ c1 hfind
      · intro hmem
        have := (List.mem_filter.mp hmem).2
        simp at this

/-- Update request supplying only a new category. -/
def updCat : RuleUpdate :=
  { title := none, category := some "workflow", description := none,
    content := none, tags := none, examples := none }

/-- Result of deleting "git-001" from the concrete store. -/
def delStore : RuleStore := (deleteRule storeGit "git-001").getD emptyStore

/-- Witness for C10: a category-changing update on a concrete store leaves
the index untouched; a concrete create and a concrete delete maintain it. -/
theorem claim_c10_witness :
    ({ rules := [applyRuleUpdate ruleGit updCat "t3"],
       categories := storeGit.categories } : RuleStore).categories = storeGit.categories ∧
    (∃ cat ∈ ((createRule storeGit (reqG "D") "t4").1).categories,
      cat.name = (reqG "D").category ∧ ((createRule storeGit (reqG "D") "t4").2).id ∈ cat.rules) ∧
    (∃ r rest, deleteRuleAux "git-001" storeGit.rules = some (r, rest) ∧
      ∀ c1, storeGit.categories.find? (fun c => c.name == r.category) = some c1 →
        ∃ c2 ∈ delStore.categories, c2.name = c1.name ∧ "git-001" ∉ c2.rules) :=
  ⟨(claim_c10.1 storeGit "git-001" updCat "t3" _ "workflow" rfl rfl).1,
   claim_c10.2.1 storeGit (reqG "D") "t4",
   claim_c10.2.2 storeGit "git-001" delStore rfl⟩

end Ais
